import Mathlib

/-!
Shallow embedding of the Load Metrics Engine of the sports-load-management
repository: the load calculator (short-term / long-term averages, week
indexing, ACWR load and quality), the schema mapper (column detection and
the sRPE fallback), and the dataframe cache handle (fingerprint and
round-trip).  Missing values (NaN in the source) are modelled as `none`,
numeric cells as rationals, dates as day numbers since 1970-01-01.
-/

namespace SportsLoad

/-- Rounding to 2 decimal places, the per-cell effect of Series.round(2). -/
def round2 (x : ℚ) : ℚ := (round (100 * x) : ℤ) / 100

/-- Rounding to 4 decimal places, the per-cell effect of Series.round(4). -/
def round4 (x : ℚ) : ℚ := (round (10000 * x) : ℤ) / 10000

/-- Arithmetic mean of a list of values, as np.mean / Series.mean. -/
def mean (l : List ℚ) : ℚ := l.sum / l.length

/-- The last n elements of a list, as Python slicing with a negative index. -/
def lastN (n : Nat) (l : List ℚ) : List ℚ := l.drop (l.length - n)

/-- Loop body of LoadCalculator._compute_short_term_for_player: walk the
date-ordered data series keeping the running list of non-missing values;
output none for the first two positions or while fewer than 3 non-missing
values have been seen, otherwise the mean of the last 3 non-missing values. -/
def shortGo (acc : List ℚ) (idx : Nat) : List (Option ℚ) → List (Option ℚ)
  | [] => []
  | v :: rest =>
    let acc2 := match v with
      | some x => acc ++ [x]
      | none => acc
    let out : Option ℚ :=
      if idx < 2 ∨ acc2.length < 3 then none
      else some (mean (lastN 3 acc2))
    out :: shortGo acc2 (idx + 1) rest

/-- LoadCalculator._compute_short_term_for_player: the loop above followed by
the final Series round(2) (missing entries stay missing). -/
def computeShortTerm (l : List (Option ℚ)) : List (Option ℚ) :=
  (shortGo [] 0 l).map (Option.map round2)

theorem shortGo_length (acc : List ℚ) (idx : Nat) (l : List (Option ℚ)) :
    (shortGo acc idx l).length = l.length := by
  induction l generalizing acc idx with
  | nil => rfl
  | cons v rest ih => simp [shortGo, ih]

theorem optToList_eq_filterMap (v : Option ℚ) :
    (match v with
      | some x => [x]
      | none => ([] : List ℚ)) = [v].filterMap id := by
  cases v <;> rfl

theorem shortGo_getElem (l : List (Option ℚ)) :
    ∀ (acc : List ℚ) (idx i : Nat), i < l.length →
    (shortGo acc idx l)[i]? =
      some (if idx + i < 2 ∨ (acc ++ (l.take (i + 1)).filterMap id).length < 3
            then none
            else some (mean (lastN 3 (acc ++ (l.take (i + 1)).filterMap id)))) := by
  induction l with
  | nil => intro acc idx i h; simp at h
  | cons v rest ih =>
    intro acc idx i h
    match i with
    | 0 =>
      cases v <;>
        simp [shortGo, List.take, List.filterMap]
    | Nat.succ j =>
      have hj : j < rest.length := by simpa using h
      have step := ih (acc ++ [v].filterMap id) (idx + 1) j hj
      have hacc : acc ++ [v].filterMap id ++ (rest.take (j + 1)).filterMap id
          = acc ++ ((v :: rest).take (j + 1 + 1)).filterMap id := by
        cases v <;> simp [List.filterMap]
      have hidx : idx + 1 + j = idx + (j + 1) := by omega
      cases v with
      | none =>
        simpa [shortGo, hidx, ← hacc] using step
      | some x =>
        simpa [shortGo, hidx, ← hacc] using step

/-- Claim C1: over a player's date-sorted series after date filling, the
short-term value at 0-based position i is missing if i < 2 or if fewer than
3 non-missing data values occur at positions 0..i; otherwise it is the mean
of the 3 most recent non-missing values up to and including position i
(missing days are skipped), rounded to 2 decimal places. -/
theorem shortTerm_spec (l : List (Option ℚ)) (i : Nat) (h : i < l.length) :
    (computeShortTerm l)[i]? =
      some (if i < 2 ∨ ((l.take (i + 1)).filterMap id).length < 3
            then none
            else some (round2 (mean (lastN 3 ((l.take (i + 1)).filterMap id))))) := by
  have hg := shortGo_getElem l [] 0 i h
  simp only [computeShortTerm, List.getElem?_map, hg]
  by_cases hc : i < 2 ∨ ((l.take (i + 1)).filterMap id).length < 3
  · simp only [List.nil_append] at hg ⊢
    simp [hc]
  · simp only [List.nil_append] at hg ⊢
    simp [hc]

/-- Witness for shortTerm_spec at a concrete series: with data
10, 20, missing, 30 the fourth position averages the three non-missing
values 10, 20, 30. -/
theorem shortTerm_spec_witness :
    (computeShortTerm [some 10, some 20, none, some 30])[3]? = some (some 20) := by
  have h := shortTerm_spec [some 10, some 20, none, some 30] 3 (by decide)
  rw [h]
  norm_num [mean, lastN, round2, round_eq, List.filterMap, List.sum]

/-- Rows of one player as (week_index, data) pairs: the pooled non-missing
data values of weeks w-2 and w-1, as collected by
LoadCalculator._compute_long_term_for_player. -/
def ltPrev (rows : List (Int × Option ℚ)) (w : Int) : List ℚ :=
  (rows.filter (fun r => r.1 == w - 2 || r.1 == w - 1)).filterMap Prod.snd

/-- Body of the week loop in _compute_long_term_for_player: weeks below 2 are
skipped, a week whose two predecessor weeks hold no non-missing value is
skipped, otherwise every row of week w receives the pooled mean. -/
def ltStep (rows : List (Int × Option ℚ)) (result : List (Option ℚ)) (w : Int) :
    List (Option ℚ) :=
  if w < 2 then result
  else if ltPrev rows w = [] then result
  else List.zipWith (fun r cur => if r.1 = w then some (mean (ltPrev rows w)) else cur)
    rows result

/-- The sorted list of distinct week indices of the player, as
sorted(player_df week_index unique). -/
def weekList (rows : List (Int × Option ℚ)) : List Int :=
  ((rows.map Prod.fst).dedup).insertionSort (· ≤ ·)

/-- LoadCalculator._compute_long_term_for_player: start from an all-missing
result, run the week loop, and round the surviving values to 2 decimals. -/
def computeLongTerm (rows : List (Int × Option ℚ)) : List (Option ℚ) :=
  ((weekList rows).foldl (ltStep rows) (rows.map (fun _ => none))).map (Option.map round2)

theorem ltStep_length (rows : List (Int × Option ℚ)) (res : List (Option ℚ)) (w : Int)
    (hlen : res.length = rows.length) : (ltStep rows res w).length = rows.length := by
  unfold ltStep
  split_ifs <;> simp [hlen]

theorem ltStep_getElem (rows : List (Int × Option ℚ)) (res : List (Option ℚ)) (w : Int)
    (hlen : res.length = rows.length) (i : Nat) (h : i < rows.length) :
    (ltStep rows res w)[i]? =
      if ¬ w < 2 ∧ ltPrev rows w ≠ [] ∧ rows[i].1 = w
      then some (some (mean (ltPrev rows w)))
      else res[i]? := by
  have hi : i < res.length := by omega
  by_cases h1 : w < 2
  · rw [if_neg (by tauto)]
    unfold ltStep
    rw [if_pos h1]
  · by_cases h2 : ltPrev rows w = []
    · rw [if_neg (by tauto)]
      unfold ltStep
      rw [if_neg h1, if_pos h2]
    · unfold ltStep
      rw [if_neg h1, if_neg h2, List.getElem?_zipWith]
      simp only [List.getElem?_eq_getElem h, List.getElem?_eq_getElem hi]
      by_cases haw : rows[i].1 = w
      · simp [haw, h1, h2]
      · simp [haw, h1, h2, List.getElem?_eq_getElem hi]

theorem foldl_ltStep_getElem (rows : List (Int × Option ℚ)) (ws : List Int) :
    ∀ (res : List (Option ℚ)), res.length = rows.length →
    ∀ (i : Nat) (h : i < rows.length),
    (ws.foldl (ltStep rows) res)[i]? =
      if rows[i].1 ∈ ws ∧ ¬ rows[i].1 < 2 ∧ ltPrev rows rows[i].1 ≠ []
      then some (some (mean (ltPrev rows rows[i].1)))
      else res[i]? := by
  induction ws with
  | nil => intro res hlen i h; simp
  | cons w ws ih =>
    intro res hlen i h
    have hlen2 : (ltStep rows res w).length = rows.length := ltStep_length rows res w hlen
    have step := ih (ltStep rows res w) hlen2 i h
    have hstep := ltStep_getElem rows res w hlen i h
    rw [List.foldl_cons, step]
    by_cases hmem : rows[i].1 ∈ ws ∧ ¬ rows[i].1 < 2 ∧ ltPrev rows rows[i].1 ≠ []
    · rw [if_pos hmem, if_pos ⟨List.mem_cons_of_mem w hmem.1, hmem.2⟩]
    · rw [if_neg hmem, hstep]
      by_cases haw : rows[i].1 = w
      · rw [haw]
        by_cases hC : ¬ w < 2 ∧ ltPrev rows w ≠ []
        · rw [if_pos ⟨hC.1, hC.2, rfl⟩, if_pos ⟨List.mem_cons_self w ws, hC⟩]
        · rw [if_neg (by tauto), if_neg (by tauto)]
      · rw [if_neg (fun hcon => haw hcon.2.2), if_neg (by
          rintro ⟨hm, hC⟩
          rcases List.mem_cons.1 hm with he | hm2
          · exact haw he
          · exact hmem ⟨hm2, hC⟩)]

theorem computeLongTerm_getElem (rows : List (Int × Option ℚ)) (i : Nat)
    (h : i < rows.length) :
    (computeLongTerm rows)[i]? =
      some (if rows[i].1 < 2 ∨ ltPrev rows rows[i].1 = [] then none
            else some (round2 (mean (ltPrev rows rows[i].1)))) := by
  have hmem : rows[i].1 ∈ weekList rows := by
    have h1 : rows[i].1 ∈ rows.map Prod.fst :=
      List.mem_map.2 ⟨rows[i], List.getElem_mem h, rfl⟩
    exact ((List.perm_insertionSort _ _).mem_iff).2 (List.mem_dedup.2 h1)
  have hlen : (rows.map (fun _ => (none : Option ℚ))).length = rows.length := by simp
  have hf := foldl_ltStep_getElem rows (weekList rows)
    (rows.map (fun _ => none)) hlen i h
  have hinit : (rows.map (fun _ => (none : Option ℚ)))[i]? = some none := by
    rw [List.getElem?_map, List.getElem?_eq_getElem h]
    rfl
  rw [computeLongTerm, List.getElem?_map, hf, hinit]
  by_cases hC : rows[i].1 < 2 ∨ ltPrev rows rows[i].1 = []
  · rw [if_neg (by tauto), if_pos hC]
    rfl
  · rw [if_pos ⟨hmem, by tauto⟩, if_neg hC]
    rfl

/-- Claim C2: for every player row, the long-term value is missing when the
row's week index is below 2 or when weeks w-2 and w-1 pool no non-missing
data value; otherwise it is the arithmetic mean of the pooled values rounded
to 2 decimals, and every row of the player with the same week index carries
the same value. -/
theorem longTerm_spec (rows : List (Int × Option ℚ)) (i : Nat) (h : i < rows.length) :
    ((computeLongTerm rows)[i]? =
      some (if rows[i].1 < 2 ∨ ltPrev rows rows[i].1 = [] then none
            else some (round2 (mean (ltPrev rows rows[i].1))))) ∧
    (∀ (j : Nat) (hj : j < rows.length), rows[j].1 = rows[i].1 →
      (computeLongTerm rows)[j]? = (computeLongTerm rows)[i]?) := by
  refine ⟨computeLongTerm_getElem rows i h, ?_⟩
  intro j hj hw
  rw [computeLongTerm_getElem rows j hj, computeLongTerm_getElem rows i h, hw]

/-- Witness for longTerm_spec: a player with one row in each of weeks 0, 1, 2
gets, in week 2, the mean of the two earlier values 2 and 4. -/
theorem longTerm_spec_witness :
    (computeLongTerm [(0, some 2), (1, some 4), (2, some 6)])[2]? = some (some 3) := by
  have h := (longTerm_spec [(0, some 2), (1, some 4), (2, some 6)] 2 (by decide)).1
  rw [h]
  norm_num [ltPrev, mean, round2, round_eq, List.filter, List.filterMap, List.sum]
  simp

/-- Weekday of a day number counted from 1970-01-01 (a Thursday), in the
Python convention Monday = 0 .. Sunday = 6. -/
def weekday (d : Nat) : Nat := (d + 3) % 7

/-- Week index of one date, as the inner week_index_for_date closure of
LoadCalculator._assign_weeks: missing dates get the sentinel -1, dates before
the first Sunday get 0, later dates get 1 plus the number of complete 7-day
blocks since the first Sunday. -/
def weekIndexForDate (firstSunday : Nat) (od : Option Nat) : Int :=
  match od with
  | none => -1
  | some d => if d < firstSunday then 0 else 1 + ((d - firstSunday) / 7 : Nat)

/-- LoadCalculator._assign_weeks over the date column: when no valid date
exists every row gets week 0, otherwise the first Sunday on or after the
minimum valid date anchors the week grid. -/
def assignWeeks (dates : List (Option Nat)) : List Int :=
  match (dates.filterMap id).min? with
  | none => dates.map (fun _ => 0)
  | some start =>
    dates.map (weekIndexForDate (start + (6 - weekday start) % 7))

/-- Claim C3: with firstSunday the first Sunday on or after the minimum valid
date (and it really is that Sunday), valid dates before firstSunday get week
0, a valid date d on or after it gets 1 + (d - firstSunday) / 7, every valid
date gets a nonnegative index, and missing dates get the sentinel -1. -/
theorem assignWeeks_spec (dates : List (Option Nat)) (m : Nat)
    (hm : (dates.filterMap id).min? = some m) :
    (m ≤ m + (6 - weekday m) % 7 ∧ weekday (m + (6 - weekday m) % 7) = 6 ∧
      ∀ d, m ≤ d → weekday d = 6 → m + (6 - weekday m) % 7 ≤ d) ∧
    (∀ (i : Nat) (h : i < dates.length),
      (dates[i] = none → (assignWeeks dates)[i]? = some (-1)) ∧
      (∀ d, dates[i] = some d → d < m + (6 - weekday m) % 7 →
        (assignWeeks dates)[i]? = some 0) ∧
      (∀ d, dates[i] = some d → m + (6 - weekday m) % 7 ≤ d →
        (assignWeeks dates)[i]? =
          some (1 + ((d - (m + (6 - weekday m) % 7)) / 7 : Nat))) ∧
      (∀ d, dates[i] = some d →
        ∃ k : Int, (assignWeeks dates)[i]? = some k ∧ 0 ≤ k)) := by
  constructor
  · refine ⟨Nat.le_add_right _ _, ?_, ?_⟩
    · unfold weekday
      omega
    · intro d hmd hwd
      unfold weekday at hwd ⊢
      omega
  · intro i h
    have hget : ∀ od, dates[i] = od →
        (assignWeeks dates)[i]? =
          some (weekIndexForDate (m + (6 - weekday m) % 7) od) := by
      intro od hod
      unfold assignWeeks
      rw [hm, List.getElem?_map, List.getElem?_eq_getElem h, hod]
      rfl
    refine ⟨?_, ?_, ?_, ?_⟩
    · intro hnone
      rw [hget none hnone]
      rfl
    · intro d hd hlt
      rw [hget (some d) hd]
      simp [weekIndexForDate, hlt]
    · intro d hd hge
      rw [hget (some d) hd]
      simp [weekIndexForDate, Nat.not_lt.2 hge]
    · intro d hd
      rw [hget (some d) hd]
      refine ⟨weekIndexForDate (m + (6 - weekday m) % 7) (some d), rfl, ?_⟩
      simp only [weekIndexForDate]
      split <;> positivity

/-- Witness for assignWeeks_spec: dates 3 (a Sunday), missing and 10 with
minimum 3; the Sunday itself opens week 1, the next Sunday opens week 2, and
the missing date gets the sentinel -1. -/
theorem assignWeeks_spec_witness :
    assignWeeks [some 3, none, some 10] = [1, -1, 2] ∧
    (assignWeeks [some 3, none, some 10])[1]? = some (-1) ∧
    (assignWeeks [some 3, none, some 10])[0]? = some 1 := by
  have hm : (([some 3, none, some 10].filterMap id).min? : Option Nat) = some 3 := by
    decide
  have h := (assignWeeks_spec [some 3, none, some 10] 3 hm).2
  refine ⟨by decide, (h 1 (by decide)).1 rfl, ?_⟩
  have h0 := (h 0 (by decide)).2.2.1 3 rfl (by decide)
  rw [h0]
  decide

/-- Per-row effect of LoadCalculator.add_load_and_quality on the load column:
the ratio short_term_ave / long_term_ave rounded to 4 decimals, masked to
missing when either operand is missing. -/
def computeLoad (st lt : Option ℚ) : Option ℚ :=
  match st, lt with
  | some s, some l => some (round4 (s / l))
  | _, _ => none

/-- The categorize closure of add_load_and_quality: missing load stays
missing, load above 1.5 is high, load below 0.6667 is low, otherwise medium. -/
def categorize (load : Option ℚ) : Option String :=
  match load with
  | none => none
  | some x =>
    if 3 / 2 < x then some "high"
    else if x < 6667 / 10000 then some "low"
    else some "medium"

/-- Claim C4: load is missing exactly when an operand is missing and equals
the rounded ratio otherwise (the divisor being nonzero keeps the rational
model aligned with the source's float division); load_quality is high iff
load exceeds 1.5, low iff load is below the exact constant 0.6667, medium
otherwise, and missing exactly when load is missing. -/
theorem loadQuality_spec (st lt : Option ℚ) (hlt : lt ≠ some 0) :
    (computeLoad st lt = none ↔ st = none ∨ lt = none) ∧
    (∀ s l, st = some s → lt = some l → computeLoad st lt = some (round4 (s / l))) ∧
    (∀ x, computeLoad st lt = some x →
      (categorize (computeLoad st lt) = some "high" ↔ 3 / 2 < x) ∧
      (categorize (computeLoad st lt) = some "low" ↔ x < 6667 / 10000) ∧
      (categorize (computeLoad st lt) = some "medium" ↔
        ¬ 3 / 2 < x ∧ ¬ x < 6667 / 10000)) ∧
    (categorize (computeLoad st lt) = none ↔ computeLoad st lt = none) := by
  refine ⟨?_, ?_, ?_, ?_⟩
  · cases st <;> cases lt <;> simp [computeLoad]
  · intro s l hs hl
    rw [hs, hl]
    rfl
  · intro x hx
    rw [hx]
    unfold categorize
    by_cases h1 : 3 / 2 < x
    · have h2 : ¬ x < 6667 / 10000 := by
        intro hcon
        have : (6667 : ℚ) / 10000 < 3 / 2 := by norm_num
        linarith
      simp [h1, h2]
    · by_cases h2 : x < 6667 / 10000
      · simp [h1, h2]
      · simp [h1, h2]
  · cases st <;> cases lt
    · simp [computeLoad, categorize]
    · simp [computeLoad, categorize]
    · simp [computeLoad, categorize]
    · simp only [computeLoad, categorize]
      split_ifs <;> simp

/-- Witness for loadQuality_spec: short 3 and long 1 give load 3, categorized
as high. -/
theorem loadQuality_spec_witness :
    computeLoad (some 3) (some 1) = some 3 ∧
    categorize (computeLoad (some 3) (some 1)) = some "high" := by
  have h := loadQuality_spec (some 3) (some 1) (by simp)
  have hload : computeLoad (some 3) (some 1) = some (round4 (3 / 1)) :=
    h.2.1 3 1 rfl rfl
  have hval : round4 ((3 : ℚ) / 1) = 3 := by
    norm_num [round4, round_eq]
  rw [hval] at hload
  refine ⟨hload, ?_⟩
  exact ((h.2.2.1 3 hload).1).2 (by norm_num)

/-- A cleaned table row: player name, date as a day number, and the possibly
missing load value. -/
structure Row where
  player : String
  date : Nat
  data : Option ℚ
deriving DecidableEq

/-- One row of the merged scaffold: the left join keeps the original data
value when the player has a row on that day and fills missing otherwise. -/
def fillRow (df : List Row) (p : String) (d : Nat) : Row :=
  match df.find? (fun r => r.player == p && r.date == d) with
  | some r => ⟨p, d, r.data⟩
  | none => ⟨p, d, none⟩

/-- The full daily date range from the global minimum to the global maximum,
as pd.date_range with daily frequency. -/
def dateRange (minD maxD : Nat) : List Nat :=
  (List.range (maxD - minD + 1)).map (fun k => minD + k)

/-- The distinct player names, in the sorted order the final
sort_values(player_name, date) leaves the players in. -/
def playersOf (df : List Row) : List String :=
  ((df.map Row.player).dedup).insertionSort (· ≤ ·)

/-- LoadCalculator.fill_missing_dates: on a nonempty table, build the
player-cross-dates scaffold over the global date range and left-join the
original rows onto it; an empty table is returned unchanged. -/
def fillMissingDates (df : List Row) : List Row :=
  match (df.map Row.date).min?, (df.map Row.date).max? with
  | some minD, some maxD =>
    (playersOf df).flatMap (fun p => (dateRange minD maxD).map (fun d => fillRow df p d))
  | _, _ => df

theorem fillRow_player (df : List Row) (p : String) (d : Nat) :
    (fillRow df p d).player = p := by
  unfold fillRow
  split <;> rfl

theorem fillRow_date (df : List Row) (p : String) (d : Nat) :
    (fillRow df p d).date = d := by
  unfold fillRow
  split <;> rfl

theorem mem_dateRange (minD maxD d : Nat) (hle : minD ≤ maxD) :
    d ∈ dateRange minD maxD ↔ minD ≤ d ∧ d ≤ maxD := by
  simp only [dateRange, List.mem_map, List.mem_range]
  constructor
  · rintro ⟨k, hk, rfl⟩
    omega
  · rintro ⟨h1, h2⟩
    exact ⟨d - minD, by omega, by omega⟩

theorem nodup_dateRange (minD maxD : Nat) : (dateRange minD maxD).Nodup :=
  (List.nodup_range _).map (fun a b hab => by omega)

theorem nodup_playersOf (df : List Row) : (playersOf df).Nodup :=
  ((List.perm_insertionSort _ _).nodup_iff).2 (List.nodup_dedup _)

theorem mem_playersOf (df : List Row) (p : String) :
    p ∈ playersOf df ↔ p ∈ df.map Row.player :=
  ((List.perm_insertionSort _ _).mem_iff).trans List.mem_dedup

theorem sum_map_const_nat {α : Type} (l : List α) (c : Nat) :
    (l.map (fun _ => c)).sum = l.length * c := by
  induction l with
  | nil => simp
  | cons a t ih => simp [ih, Nat.succ_mul, Nat.add_comm]

theorem sum_map_ite_nat {α : Type} [DecidableEq α] (l : List α) (a : α) (c : Nat)
    (hnd : l.Nodup) :
    (l.map (fun x => if x = a then c else 0)).sum = if a ∈ l then c else 0 := by
  induction l with
  | nil => simp
  | cons x t ih =>
    have hnd2 : t.Nodup := hnd.of_cons
    by_cases hxa : x = a
    · subst hxa
      have hnx : x ∉ t := (List.nodup_cons.1 hnd).1
      simp [hnx, ih hnd2]
    · simp [hxa, ih hnd2, Ne.symm hxa]

theorem nat_min?_eq_some (l : List Nat) (a : Nat) :
    l.min? = some a ↔ a ∈ l ∧ ∀ b ∈ l, a ≤ b :=
  List.min?_eq_some_iff (fun x => le_refl x) (fun x y => min_choice x y)
    (fun _ _ _ => le_min_iff)

theorem nat_max?_eq_some (l : List Nat) (a : Nat) :
    l.max? = some a ↔ a ∈ l ∧ ∀ b ∈ l, b ≤ a :=
  List.max?_eq_some_iff (fun x => le_refl x) (fun x y => max_choice x y)
    (fun _ _ _ => max_le_iff)

theorem countP_fillBlock (df : List Row) (p p0 : String) (d0 minD maxD : Nat) :
    ((dateRange minD maxD).map (fun d => fillRow df p d)).countP
        (fun r => r.player == p0 && r.date == d0) =
      if p = p0 ∧ d0 ∈ dateRange minD maxD then 1 else 0 := by
  rw [List.countP_map]
  have hcong : List.countP
      ((fun r => r.player == p0 && r.date == d0) ∘ (fun d => fillRow df p d))
      (dateRange minD maxD) =
      List.countP (fun d => p == p0 && d == d0) (dateRange minD maxD) := by
    apply List.countP_congr
    intro d _
    simp [Function.comp, fillRow_player, fillRow_date]
  rw [hcong]
  by_cases hp : p = p0
  · subst hp
    by_cases hd : d0 ∈ dateRange minD maxD
    · rw [if_pos ⟨rfl, hd⟩]
      have : List.countP (fun d => p == p && d == d0) (dateRange minD maxD) =
          List.count d0 (dateRange minD maxD) := by
        rw [List.count_eq_countP]
        apply List.countP_congr
        intro d _
        simp
      rw [this]
      exact List.count_eq_one_of_mem (nodup_dateRange _ _) hd
    · rw [if_neg (by tauto), List.countP_eq_zero]
      intro d hdm
      simp only [Bool.and_eq_true, beq_iff_eq]
      rintro ⟨-, rfl⟩
      exact hd hdm
  · rw [if_neg (by tauto), List.countP_eq_zero]
    intro d _
    simp only [Bool.and_eq_true, beq_iff_eq]
    rintro ⟨hpp, -⟩
    exact hp hpp

/-- Claim C5: on a nonempty cleaned table with at most one row per
(player, date) key, fill_missing_dates yields exactly players-times-days
rows, exactly one row per player and per day of the inclusive global date
range, keeps every original row, and gives every synthesized row a missing
data value. -/
theorem fillMissingDates_spec (df : List Row) (minD maxD : Nat)
    (hmin : (df.map Row.date).min? = some minD)
    (hmax : (df.map Row.date).max? = some maxD)
    (huniq : ∀ r1 ∈ df, ∀ r2 ∈ df,
      r1.player = r2.player → r1.date = r2.date → r1 = r2) :
    ((fillMissingDates df).length = (playersOf df).length * (maxD - minD + 1)) ∧
    (∀ (p : String) (d : Nat),
      (fillMissingDates df).countP (fun r => r.player == p && r.date == d) =
        if p ∈ df.map Row.player ∧ minD ≤ d ∧ d ≤ maxD then 1 else 0) ∧
    (∀ r ∈ df, r ∈ fillMissingDates df) ∧
    (∀ r ∈ fillMissingDates df,
      (∀ s ∈ df, ¬ (s.player = r.player ∧ s.date = r.date)) → r.data = none) := by
  have hfill : fillMissingDates df =
      (playersOf df).flatMap
        (fun p => (dateRange minD maxD).map (fun d => fillRow df p d)) := by
    unfold fillMissingDates
    rw [hmin, hmax]
  have hminmem := (nat_min?_eq_some _ _).1 hmin
  have hmaxmem := (nat_max?_eq_some _ _).1 hmax
  have hle : minD ≤ maxD := hmaxmem.2 _ hminmem.1
  refine ⟨?_, ?_, ?_, ?_⟩
  · rw [hfill, List.length_flatMap]
    have : (playersOf df).map (List.length ∘
        fun p => (dateRange minD maxD).map (fun d => fillRow df p d)) =
        (playersOf df).map (fun _ => maxD - minD + 1) := by
      apply List.map_congr_left
      intro p _
      simp [dateRange]
    rw [this, sum_map_const_nat]
  · intro p d
    rw [hfill, List.countP_flatMap]
    have : (playersOf df).map ((List.countP (fun r => r.player == p && r.date == d)) ∘
        fun q => (dateRange minD maxD).map (fun e => fillRow df q e)) =
        (playersOf df).map (fun q => if q = p ∧ d ∈ dateRange minD maxD then 1 else 0) := by
      apply List.map_congr_left
      intro q _
      simpa using countP_fillBlock df q p d minD maxD
    rw [this]
    by_cases hd : d ∈ dateRange minD maxD
    · have : (playersOf df).map (fun q => if q = p ∧ d ∈ dateRange minD maxD then 1 else 0) =
          (playersOf df).map (fun q => if q = p then 1 else 0) := by
        apply List.map_congr_left
        intro q _
        simp [hd]
      rw [this, sum_map_ite_nat _ _ _ (nodup_playersOf df)]
      simp only [mem_playersOf]
      rcases (mem_dateRange minD maxD d hle).1 hd with ⟨h1, h2⟩
      by_cases hp : p ∈ df.map Row.player
      · rw [if_pos hp, if_pos ⟨hp, h1, h2⟩]
      · rw [if_neg hp, if_neg (by tauto)]
    · have hcond : ¬ (p ∈ df.map Row.player ∧ minD ≤ d ∧ d ≤ maxD) := by
        rw [mem_dateRange _ _ _ hle] at hd
        tauto
      rw [if_neg hcond]
      have : (playersOf df).map (fun q => if q = p ∧ d ∈ dateRange minD maxD then 1 else 0) =
          (playersOf df).map (fun _ => 0) := by
        apply List.map_congr_left
        intro q _
        simp [hd]
      rw [this, sum_map_const_nat, Nat.mul_zero]
  · intro r hr
    have hp : r.player ∈ playersOf df :=
      (mem_playersOf df r.player).2 (List.mem_map.2 ⟨r, hr, rfl⟩)
    have hdm : r.date ∈ df.map Row.date := List.mem_map.2 ⟨r, hr, rfl⟩
    have hd : r.date ∈ dateRange minD maxD := by
      rw [mem_dateRange _ _ _ hle]
      exact ⟨((nat_min?_eq_some _ _).1 hmin).2 _ hdm, ((nat_max?_eq_some _ _).1 hmax).2 _ hdm⟩
    have hfr : fillRow df r.player r.date = r := by
      have hsome : (df.find? (fun x => x.player == r.player && x.date == r.date)).isSome := by
        rw [List.find?_isSome]
        exact ⟨r, hr, by simp⟩
      obtain ⟨r2, hr2⟩ := Option.isSome_iff_exists.1 hsome
      have hpred := List.find?_some hr2
      simp only [Bool.and_eq_true, beq_iff_eq] at hpred
      have hmem2 := List.mem_of_find?_eq_some hr2
      have : r2 = r := huniq r2 hmem2 r hr hpred.1 hpred.2
      unfold fillRow
      rw [hr2, this]
    rw [hfill, List.mem_flatMap]
    exact ⟨r.player, hp, List.mem_map.2 ⟨r.date, hd, hfr⟩⟩
  · intro r hr hno
    rw [hfill, List.mem_flatMap] at hr
    obtain ⟨p, -, hrb⟩ := hr
    obtain ⟨d, -, hrd⟩ := List.mem_map.1 hrb
    have hnone : df.find? (fun x => x.player == p && x.date == d) = none := by
      rw [List.find?_eq_none]
      intro s hs
      simp only [Bool.and_eq_true, beq_iff_eq]
      rintro ⟨h1, h2⟩
      exact hno s hs (by rw [← hrd] at *; exact ⟨by rw [fillRow_player]; exact h1,
        by rw [fillRow_date]; exact h2⟩)
    rw [← hrd]
    unfold fillRow
    rw [hnone]

/-- Witness for fillMissingDates_spec, the claim's own scenario: player A
with data on 2024-01-01 (day 19723) and 2024-01-03 (day 19725) expands to
three rows, missing data on the middle day, exactly one row on each day, and
short_term_ave missing on all three rows. -/
theorem fillMissingDates_spec_witness :
    (fillMissingDates [⟨"A", 19723, some 10⟩, ⟨"A", 19725, some 20⟩]).length = 3 ∧
    (fillMissingDates [⟨"A", 19723, some 10⟩, ⟨"A", 19725, some 20⟩]).map Row.data =
      [some 10, none, some 20] ∧
    computeShortTerm
      ((fillMissingDates [⟨"A", 19723, some 10⟩, ⟨"A", 19725, some 20⟩]).map Row.data) =
      [none, none, none] ∧
    (fillMissingDates [⟨"A", 19723, some 10⟩, ⟨"A", 19725, some 20⟩]).countP
      (fun r => r.player == "A" && r.date == 19724) = 1 := by
  have h := fillMissingDates_spec [⟨"A", 19723, some 10⟩, ⟨"A", 19725, some 20⟩]
    19723 19725 (by decide) (by decide) (by decide)
  refine ⟨?_, by decide, by decide, ?_⟩
  · rw [h.1]
    decide
  · rw [h.2.1 "A" 19724]
    decide

/-- A separator character accepted by the regex character class of whitespace
or underscore used between words in the column patterns. -/
def sepOk (c : Char) : Bool := c == '_' || c.isWhitespace

/-- Matcher combinator for a literal word followed by a continuation, the
building block for the anchored column regexes. -/
def litP (a : String) (k : List Char → Bool) (s : List Char) : Bool :=
  s.take a.toList.length == a.toList && k (s.drop a.toList.length)

/-- Matcher for the end-of-name anchor. -/
def epsP (s : List Char) : Bool := s.isEmpty

/-- Matcher combinator for an optional whitespace-or-underscore separator. -/
def optSepP (k : List Char → Bool) (s : List Char) : Bool :=
  k s ||
    (match s with
      | c :: t => sepOk c && k t
      | [] => false)

/-- Matcher combinator for an optional single literal character. -/
def optCharP (c : Char) (k : List Char → Bool) (s : List Char) : Bool :=
  k s ||
    (match s with
      | x :: t => x == c && k t
      | [] => false)

/-- The player-identifier pattern family of ColumnMapper.PLAYER_PATTERNS, in
source order. -/
def playerPatterns : List (List Char → Bool) :=
  [ litP "athlete" (optSepP (litP "name" epsP)),
    litP "player" (optSepP (litP "name" epsP)),
    litP "player" epsP,
    litP "athlete" epsP,
    litP "name" epsP,
    litP "player" (optSepP (litP "id" epsP)),
    litP "athlete" (optSepP (litP "id" epsP)),
    litP "id" epsP ]

/-- The date pattern family of ColumnMapper.DATE_PATTERNS. -/
def datePatterns : List (List Char → Bool) :=
  [ litP "date" epsP,
    litP "day" epsP,
    litP "training" (optSepP (litP "date" epsP)),
    litP "session" (optSepP (litP "date" epsP)) ]

/-- The direct-load pattern family of ColumnMapper.LOAD_PATTERNS. -/
def loadPatterns : List (List Char → Bool) :=
  [ litP "load" epsP,
    litP "training" (optSepP (litP "load" epsP)),
    litP "srpe" epsP,
    litP "session" (optSepP (litP "load" epsP)),
    litP "workload" epsP,
    litP "data" epsP ]

/-- The perceived-exertion pattern family of ColumnMapper.RPE_PATTERNS. -/
def rpePatterns : List (List Char → Bool) :=
  [ litP "rpe" epsP,
    litP "rating" (optSepP (litP "of" (optSepP
      (litP "perceived" (optSepP (litP "exertion" epsP)))))),
    litP "perceived" (optSepP (litP "exertion" epsP)) ]

/-- The duration pattern family of ColumnMapper.TIME_PATTERNS. -/
def timePatterns : List (List Char → Bool) :=
  [ litP "time" epsP,
    litP "time" (optSepP (optCharP '(' (litP "min" (optCharP 's' (optCharP ')' epsP))))),
    litP "duration" epsP,
    litP "duration" (optSepP (optCharP '(' (litP "min" (optCharP 's' (optCharP ')' epsP))))),
    litP "minutes" epsP,
    litP "session" (optSepP (litP "time" epsP)),
    litP "training" (optSepP (litP "time" epsP)) ]

/-- Strip leading and trailing whitespace from a character list, the effect
of Python str.strip(). -/
def trimChars (l : List Char) : List Char :=
  ((l.dropWhile Char.isWhitespace).reverse.dropWhile Char.isWhitespace).reverse

/-- The normalized column name compared against the patterns:
col.lower().strip(). -/
def normalizeCol (c : String) : List Char :=
  trimChars (c.toList.map Char.toLower)

/-- Whether a column name matches any pattern of a family, the inner loop of
ColumnMapper._match_column. -/
def colMatches (fam : List (List Char → Bool)) (col : String) : Bool :=
  fam.any (fun pat => pat (normalizeCol col))

/-- ColumnMapper._match_column: the first column, in the table's original
left-to-right order, whose normalized name matches any pattern of the
family. -/
def matchColumn (fam : List (List Char → Bool)) (cols : List String) : Option String :=
  cols.find? (colMatches fam)

/-- Outcome of ColumnMapper.detect_columns on a column-name list. -/
structure Detection where
  playerCol : Option String
  dateCol : Option String
  loadCol : Option String
  rpeCol : Option String
  timeCol : Option String
  hasSrpe : Bool
deriving DecidableEq

/-- ColumnMapper.detect_columns: player and date families are probed
independently; a direct load column wins, otherwise the sRPE fallback fires
exactly when both an RPE and a time column are found. -/
def detectColumns (cols : List String) : Detection :=
  let pc := matchColumn playerPatterns cols
  let dc := matchColumn datePatterns cols
  match matchColumn loadPatterns cols with
  | some lc => ⟨pc, dc, some lc, none, none, false⟩
  | none =>
    match matchColumn rpePatterns cols, matchColumn timePatterns cols with
    | some rc, some tc => ⟨pc, dc, none, some rc, some tc, true⟩
    | _, _ => ⟨pc, dc, none, none, none, false⟩

/-- The rename mapping built by detect_columns: detected player, date and
direct-load columns map to the canonical names. -/
def columnMapping (cols : List String) : List (String × String) :=
  (match matchColumn playerPatterns cols with
    | some c => [(c, "player_name")]
    | none => []) ++
  (match matchColumn datePatterns cols with
    | some c => [(c, "date")]
    | none => []) ++
  (match matchColumn loadPatterns cols with
    | some c => [(c, "data")]
    | none => [])

/-- Elementwise product with missing propagation, the pandas multiplication
of the two numeric-coerced sRPE operand columns. -/
def mulCell (a b : Option ℚ) : Option ℚ :=
  match a, b with
  | some x, some y => some (x * y)
  | _, _ => none

/-- The derived data column of ColumnMapper.apply_mapping in the sRPE
fallback: both operand columns coerced cellwise to numeric (toNum models
pd.to_numeric with coercion, turning non-numeric tokens into missing), then
multiplied elementwise. -/
def srpeData {α : Type} (toNum : α → Option ℚ) (rpe time : List α) : List (Option ℚ) :=
  List.zipWith mulCell (rpe.map toNum) (time.map toNum)

/-- Claim C6: matchColumn returns the first column in original order whose
lowercased stripped name matches any pattern of the family; a detected
direct-load column is renamed to data; has_srpe_columns is true exactly when
no load column is detected and both an RPE and a time column are; and in the
fallback the data column is the elementwise product of the numeric-coerced
operands, missing whenever either operand is missing. -/
theorem columnMapper_spec {α : Type} (fam : List (List Char → Bool))
    (cols : List String) (c : String) (toNum : α → Option ℚ)
    (rpe time : List α) (i : Nat) :
    (matchColumn fam cols = some c ↔
      colMatches fam c = true ∧ ∃ k, ∃ hk : k < cols.length, cols.get ⟨k, hk⟩ = c ∧
        ∀ (j : Nat) (hj : j < k),
          colMatches fam (cols.get ⟨j, Nat.lt_trans hj hk⟩) = false) ∧
    ((detectColumns cols).hasSrpe = true ↔
      matchColumn loadPatterns cols = none ∧
      (matchColumn rpePatterns cols).isSome = true ∧
      (matchColumn timePatterns cols).isSome = true) ∧
    (matchColumn loadPatterns cols = some c → (c, "data") ∈ columnMapping cols) ∧
    (∀ (h1 : i < rpe.length) (h2 : i < time.length),
      (srpeData toNum rpe time)[i]? =
        some (match toNum (rpe.get ⟨i, h1⟩), toNum (time.get ⟨i, h2⟩) with
          | some x, some y => some (x * y)
          | _, _ => none)) := by
  refine ⟨?_, ?_, ?_, ?_⟩
  · rw [matchColumn, List.find?_eq_some_iff_getElem]
    constructor
    · rintro ⟨hpc, k, hk, hck, hbefore⟩
      refine ⟨hpc, k, hk, by simpa using hck, fun j hj => ?_⟩
      have := hbefore j hj
      simpa using this
    · rintro ⟨hpc, k, hk, hck, hbefore⟩
      refine ⟨hpc, k, hk, by simpa using hck, fun j hj => ?_⟩
      have := hbefore j hj
      simpa using this
  · unfold detectColumns
    cases hl : matchColumn loadPatterns cols with
    | some lc => simp [hl]
    | none =>
      cases hr : matchColumn rpePatterns cols with
      | none => simp [hr]
      | some rc =>
        cases ht : matchColumn timePatterns cols with
        | none => simp [hr, ht]
        | some tc => simp [hr, ht]
  · intro hl
    unfold columnMapping
    rw [hl]
    simp
  · intro h1 h2
    unfold srpeData
    rw [List.getElem?_zipWith]
    simp only [List.getElem?_map, List.getElem?_eq_getElem h1, List.getElem?_eq_getElem h2,
      List.get_eq_getElem]
    rfl

/-- Witness for columnMapper_spec: columns RPE and Duration with no load
column trigger the sRPE fallback, the first matching column is returned, and
the derived cells multiply with missing propagation. -/
theorem columnMapper_spec_witness :
    (detectColumns ["RPE", "Duration"]).hasSrpe = true ∧
    matchColumn timePatterns ["RPE", "Duration"] = some "Duration" ∧
    (srpeData id [some 7, some 2, none] [some 60, none, some 30])[0]? =
      some (some 420) := by
  have h := columnMapper_spec timePatterns ["RPE", "Duration"] "Duration"
    (id : Option ℚ → Option ℚ) [some 7, some 2, none] [some 60, none, some 30] 0
  refine ⟨?_, ?_, ?_⟩
  · exact h.2.1.2 ⟨by decide, by decide, by decide⟩
  · have hb : ∀ (j : Nat) (hj : j < 1),
        colMatches timePatterns
          ((["RPE", "Duration"] : List String).get ⟨j, Nat.lt_trans hj Nat.one_lt_two⟩) =
          false := by
      intro j hj
      have hj0 : j = 0 := by omega
      subst hj0
      exact (by decide :
        colMatches timePatterns
          ((["RPE", "Duration"] : List String).get ⟨0, Nat.zero_lt_two⟩) = false)
    exact h.1.2 ⟨by decide, 1, Nat.one_lt_two, rfl, hb⟩
  · have h5 := h.2.2.2 (by decide) (by decide)
    rw [h5]
    norm_num [List.get]

/-- The sorted copy of the source list kept by DataFrameHandle.__init__
(self.sources = sorted(sources)). -/
def sortSources (sources : List String) : List String :=
  sources.insertionSort (· ≤ ·)

/-- The byte stream fed to the SHA-256 hasher by DataFrameHandle._generate_uid:
every sorted source string, then every processing fingerprint string, plainly
concatenated with no separators. -/
def uidInput (sources fps : List String) : String :=
  String.join (sortSources sources ++ fps)

/-- DataFrameHandle._generate_uid with the digest function abstracted: the uid
is the digest of the concatenated stream and of nothing else (in particular
not of the table's data bytes, which are not an input at all). -/
def generateUid (H : String → String) (sources fps : List String) : String :=
  H (uidInput sources fps)

/-- Claim C7: handles built from source lists that are permutations of each
other and from identical processing fingerprint sequences get the same uid,
because the sources are sorted before hashing. -/
theorem uid_source_order_indep (H : String → String) (s1 s2 fps : List String)
    (hperm : s1.Perm s2) :
    generateUid H s1 fps = generateUid H s2 fps := by
  have hs : sortSources s1 = sortSources s2 :=
    List.eq_of_perm_of_sorted
      ((List.perm_insertionSort _ s1).trans (hperm.trans (List.perm_insertionSort _ s2).symm))
      (List.sorted_insertionSort _ s1) (List.sorted_insertionSort _ s2)
  unfold generateUid uidInput
  rw [hs]

/-- Witness for uid_source_order_indep on the concrete source lists b, a and
a, b with one fingerprint. -/
theorem uid_source_order_indep_witness :
    generateUid id ["b", "a"] ["f"] = generateUid id ["a", "b"] ["f"] :=
  uid_source_order_indep id ["b", "a"] ["a", "b"] ["f"] (by decide)

/-- The cache file name derived from a uid in DataFrameHandle.__init__. -/
def cacheFileName (uid : String) : String := uid ++ ".arrow"

/-- Claim C10: the unseparated concatenation makes distinct provenances
collide: sources ab versus a, b with the same fingerprint feed the hasher the
same stream, as does moving a suffix of the last source onto the first
processing fingerprint, so for any digest function the uids and hence the
cache file names coincide. -/
theorem uid_concat_collision :
    (["ab"] : List String) ≠ ["a", "b"] ∧
    uidInput ["ab"] ["x"] = uidInput ["a", "b"] ["x"] ∧
    (["a"], ["bx"]) ≠ ((["ab"], ["x"]) : List String × List String) ∧
    uidInput ["a"] ["bx"] = uidInput ["ab"] ["x"] ∧
    ∀ H : String → String,
      generateUid H ["ab"] ["x"] = generateUid H ["a", "b"] ["x"] ∧
      cacheFileName (generateUid H ["ab"] ["x"]) =
        cacheFileName (generateUid H ["a", "b"] ["x"]) := by
  have hab : ("a" : String) ≤ "b" := by
    rw [String.le_iff_toList_le]
    decide
  have hsort : sortSources ["a", "b"] = ["a", "b"] := by
    simp [sortSources, List.insertionSort, List.orderedInsert, hab]
  have h1 : uidInput ["ab"] ["x"] = uidInput ["a", "b"] ["x"] := by
    rw [uidInput, uidInput, hsort]
    decide
  have h4 : uidInput ["a"] ["bx"] = uidInput ["ab"] ["x"] := by
    rw [uidInput, uidInput]
    decide
  refine ⟨by decide, h1, by decide, h4, fun H => ?_⟩
  have h2 : generateUid H ["ab"] ["x"] = generateUid H ["a", "b"] ["x"] := by
    unfold generateUid
    rw [h1]
  exact ⟨h2, by rw [h2]⟩

/-- The tabular payload persisted in the cache: column names and cell rows. -/
structure CacheTable where
  cols : List String
  cells : List (List (Option ℚ))
deriving DecidableEq

/-- A loaded table in one of the three requested output shapes. -/
inductive LoadedFrame where
  | pandasDF (t : CacheTable)
  | polarsDF (t : CacheTable)
  | polarsLazyDF (t : CacheTable)
deriving DecidableEq

/-- The tabular content carried by a loaded frame, whatever its shape. -/
def contentOf : LoadedFrame → CacheTable
  | .pandasDF t => t
  | .polarsDF t => t
  | .polarsLazyDF t => t

/-- The cache directory contents: what Feather file sits at each path.
feather.write_feather and the readers are external collaborators modelled as
a content-faithful keyed store. -/
def FeatherStore : Type := String → Option CacheTable

/-- feather.write_feather: store the table at the path, overwriting. -/
def writeFeather (st : FeatherStore) (path : String) (t : CacheTable) : FeatherStore :=
  fun q => if q = path then some t else st q

/-- The metadata handle kept by DataFrameHandle: uid, declared flavor, cache
directory, shape and column names, never the payload. -/
structure Handle where
  uid : String
  dfType : String
  cacheDir : String
  shape : Nat × Nat
  columns : List String
deriving DecidableEq

/-- The cache path f"{uid}.arrow" under the cache directory. -/
def handlePath (cacheDir uid : String) : String :=
  cacheDir ++ "/" ++ cacheFileName uid

/-- DataFrameHandle.__init__ plus _save: compute the uid from sources and
fingerprints, persist the table at the derived path, and record shape and
columns in the handle. -/
def commitHandle (H : String → String) (st : FeatherStore) (t : CacheTable)
    (sources fps : List String) (cacheDir : String) (dfType : String) :
    Handle × FeatherStore :=
  let uid := generateUid H sources fps
  (⟨uid, dfType, cacheDir, (t.cells.length, t.cols.length), t.cols⟩,
    writeFeather st (handlePath cacheDir uid) t)

/-- DataFrameHandle.load: fail when the cache file is absent, fall back to the
handle's own flavor when no format is requested, reject invalid formats, and
read the stored table back in the requested shape. -/
def loadHandle (st : FeatherStore) (h : Handle) (format : Option String) :
    Except String LoadedFrame :=
  match st (handlePath h.cacheDir h.uid) with
  | none => .error ("Cache file not found for UID " ++ h.uid)
  | some t =>
    let f := format.getD h.dfType
    if f = "pandas" then .ok (.pandasDF t)
    else if f = "polars" then .ok (.polarsDF t)
    else if f = "polars_lazy" then .ok (.polarsLazyDF t)
    else .error "Format must be one of pandas, polars, polars_lazy."

/-- Claim C8: loading a committed table back in any of the three valid output
shapes returns exactly the committed content (same columns, same cells, hence
same shape), and the handle metadata records the table's shape and columns. -/
theorem cacheRoundTrip_spec (H : String → String) (st : FeatherStore)
    (t : CacheTable) (sources fps : List String) (cacheDir dfType : String)
    (fmt : String) :
    (fmt = "pandas" →
      loadHandle (commitHandle H st t sources fps cacheDir dfType).2
        (commitHandle H st t sources fps cacheDir dfType).1 (some fmt) =
        .ok (.pandasDF t)) ∧
    (fmt = "polars" →
      loadHandle (commitHandle H st t sources fps cacheDir dfType).2
        (commitHandle H st t sources fps cacheDir dfType).1 (some fmt) =
        .ok (.polarsDF t)) ∧
    (fmt = "polars_lazy" →
      loadHandle (commitHandle H st t sources fps cacheDir dfType).2
        (commitHandle H st t sources fps cacheDir dfType).1 (some fmt) =
        .ok (.polarsLazyDF t)) ∧
    (∀ fr, loadHandle (commitHandle H st t sources fps cacheDir dfType).2
        (commitHandle H st t sources fps cacheDir dfType).1 (some fmt) = .ok fr →
      contentOf fr = t) ∧
    ((commitHandle H st t sources fps cacheDir dfType).1.shape =
      (t.cells.length, t.cols.length) ∧
     (commitHandle H st t sources fps cacheDir dfType).1.columns = t.cols) := by
  have hread : (commitHandle H st t sources fps cacheDir dfType).2
      (handlePath (commitHandle H st t sources fps cacheDir dfType).1.cacheDir
        (commitHandle H st t sources fps cacheDir dfType).1.uid) = some t := by
    simp [commitHandle, writeFeather]
  refine ⟨?_, ?_, ?_, ?_, rfl, rfl⟩
  · rintro rfl
    unfold loadHandle
    rw [hread]
    rfl
  · rintro rfl
    unfold loadHandle
    rw [hread]
    rfl
  · rintro rfl
    unfold loadHandle
    rw [hread]
    rfl
  · intro fr hfr
    unfold loadHandle at hfr
    rw [hread] at hfr
    simp only [Option.getD_some] at hfr
    split_ifs at hfr
    all_goals cases hfr
    all_goals rfl

/-- Witness for cacheRoundTrip_spec: a one-cell table committed to an empty
store loads back identically in polars shape. -/
theorem cacheRoundTrip_spec_witness :
    loadHandle
      (commitHandle id (fun _ => none) ⟨["c"], [[some 1]]⟩ ["s"] ["p"] "cache" "pandas").2
      (commitHandle id (fun _ => none) ⟨["c"], [[some 1]]⟩ ["s"] ["p"] "cache" "pandas").1
      (some "polars") = .ok (.polarsDF ⟨["c"], [[some 1]]⟩) :=
  (cacheRoundTrip_spec id (fun _ => none) ⟨["c"], [[some 1]]⟩ ["s"] ["p"]
    "cache" "pandas" "polars").2.1 rfl

/-- A row of the calculator table with all derived fields; a field is
meaningful only when the corresponding column-presence flag of the state is
set. -/
structure CalcRow where
  player : String
  date : Nat
  data : Option ℚ
  short : Option ℚ
  week : Int
  long : Option ℚ
  load : Option ℚ
  quality : Option String
deriving DecidableEq

/-- The calculator state: the table plus which derived columns exist, the
Lean counterpart of membership tests like short_term_ave in df.columns. -/
structure Calc where
  rows : List CalcRow
  hasShort : Bool
  hasWeek : Bool
  hasLong : Bool
deriving DecidableEq

/-- The sort key of sort_values(player_name, date). -/
def rowLe (a b : CalcRow) : Prop :=
  a.player < b.player ∨ (a.player = b.player ∧ a.date ≤ b.date)

instance : DecidableRel rowLe := fun a b => by
  unfold rowLe
  infer_instance

/-- The sort_values(player_name, date) step opening each add stage. -/
def sortRows (rows : List CalcRow) : List CalcRow :=
  rows.insertionSort rowLe

/-- The distinct player names in the sorted order pandas groupby visits the
groups in. -/
def playerList (rows : List CalcRow) : List String :=
  ((rows.map CalcRow.player).dedup).insertionSort (· ≤ ·)

/-- One player's group of rows, in table order. -/
def groupFor (rows : List CalcRow) (p : String) : List CalcRow :=
  rows.filter (fun r => r.player == p)

/-- LoadCalculator.add_short_term_average: sort, then give every player group
its short-term series; the stage checks nothing and never signals an error. -/
def addShortTermAverage (c : Calc) : Calc × Option String :=
  let rows := sortRows c.rows
  let rows2 := (playerList rows).flatMap (fun p =>
    List.zipWith (fun r v => { r with short := v }) (groupFor rows p)
      (computeShortTerm ((groupFor rows p).map CalcRow.data)))
  ({ rows := rows2, hasShort := true, hasWeek := c.hasWeek, hasLong := c.hasLong },
    none)

/-- LoadCalculator._assign_weeks at the table level. -/
def assignWeeksCalc (c : Calc) : Calc :=
  { rows := List.zipWith (fun r w => { r with week := w }) c.rows
      (assignWeeks (c.rows.map (fun r => some r.date))),
    hasShort := c.hasShort, hasWeek := true, hasLong := c.hasLong }

/-- LoadCalculator.add_long_term_average: compute week_index itself when the
column is absent, sort, then give every player group its long-term series; it
requires no other column and never signals an error. -/
def addLongTermAverage (c : Calc) : Calc × Option String :=
  let c1 := if c.hasWeek then c else assignWeeksCalc c
  let rows := sortRows c1.rows
  let rows2 := (playerList rows).flatMap (fun p =>
    List.zipWith (fun r v => { r with long := v }) (groupFor rows p)
      (computeLongTerm ((groupFor rows p).map (fun r => (r.week, r.data)))))
  ({ rows := rows2, hasShort := c1.hasShort, hasWeek := true, hasLong := true },
    none)

/-- LoadCalculator.add_load_and_quality: raise (returning the untouched state
with the error message) when short_term_ave or long_term_ave is absent,
otherwise fill the load and quality columns row by row. -/
def addLoadAndQuality (c : Calc) : Calc × Option String :=
  if c.hasShort = false then
    (c, some "short_term_ave column missing. Call add_short_term_average() first.")
  else if c.hasLong = false then
    (c, some "long_term_ave column missing. Call add_long_term_average() first.")
  else
    ({ rows := c.rows.map (fun r =>
          { r with load := computeLoad r.short r.long,
                   quality := categorize (computeLoad r.short r.long) }),
       hasShort := c.hasShort, hasWeek := c.hasWeek, hasLong := c.hasLong },
      none)

/-- Claim C9 (counterexample): a state whose table lacks the short_term_ave
column is processed by add_long_term_average without any precondition error,
so the out-of-order failure the claim asserts for every stage does not occur
here; the stage simply computes week_index and long_term_ave. -/
theorem stageOrder_counterexample :
    ((⟨[⟨"A", 0, some 1, none, 0, none, none, none⟩],
        false, false, false⟩ : Calc)).hasShort = false ∧
    (addLongTermAverage
      ⟨[⟨"A", 0, some 1, none, 0, none, none, none⟩],
        false, false, false⟩).2 = none ∧
    (addLongTermAverage
      ⟨[⟨"A", 0, some 1, none, 0, none, none, none⟩],
        false, false, false⟩).1.hasLong = true :=
  ⟨rfl, rfl, rfl⟩

/-- Claim C9 (amended): only add_load_and_quality enforces its precondition:
it fails with a message naming the missing column when short_term_ave or
long_term_ave is absent and leaves the state untouched in that case,
succeeding exactly when both columns exist; the two average stages themselves
never signal a precondition error. -/
theorem addLoadAndQuality_precondition (c : Calc) :
    (c.hasShort = false →
      addLoadAndQuality c =
        (c, some "short_term_ave column missing. Call add_short_term_average() first.")) ∧
    (c.hasShort = true → c.hasLong = false →
      addLoadAndQuality c =
        (c, some "long_term_ave column missing. Call add_long_term_average() first.")) ∧
    ((addLoadAndQuality c).2 = none ↔ c.hasShort = true ∧ c.hasLong = true) ∧
    (∀ c2 msg, addLoadAndQuality c = (c2, some msg) → c2 = c) ∧
    ((addShortTermAverage c).2 = none ∧ (addLongTermAverage c).2 = none) := by
  refine ⟨?_, ?_, ?_, ?_, rfl, rfl⟩
  · intro hs
    unfold addLoadAndQuality
    rw [if_pos hs]
  · intro hs hl
    unfold addLoadAndQuality
    rw [if_neg (by rw [hs]; exact fun hcon => by cases hcon), if_pos hl]
  · unfold addLoadAndQuality
    cases hs : c.hasShort
    · simp
    · cases hl : c.hasLong
      · simp
      · simp
  · intro c2 msg hmsg
    unfold addLoadAndQuality at hmsg
    split_ifs at hmsg
    · cases hmsg
      rfl
    · cases hmsg
      rfl
    · cases hmsg

/-- Witness for addLoadAndQuality_precondition: on a state without the
short_term_ave column the stage returns the state unchanged together with
the error naming short_term_ave. -/
theorem addLoadAndQuality_precondition_witness :
    addLoadAndQuality ⟨[], false, false, false⟩ =
      (⟨[], false, false, false⟩,
        some "short_term_ave column missing. Call add_short_term_average() first.") :=
  (addLoadAndQuality_precondition ⟨[], false, false, false⟩).1 rfl

end SportsLoad
